import Mathlib

/-!
Shallow embedding of `src/epub_to_pdf.py` (EPUB to PDF converter).

Strings are modelled as `List Char`; Python regular-expression scans are
modelled as explicit left-to-right scanners with the same leftmost,
non-overlapping match semantics.  Scanners that jump past a match carry a
`Nat` fuel parameter; the wrappers pass the input length, which suffices
because every step consumes at least one character.  The extracted archive's
filesystem is a list of `(path, contents)` pairs.
-/

/-- Python `str.lower` restricted to ASCII (all inputs of interest are ASCII). -/
def lowerL (l : List Char) : List Char := l.map Char.toLower

/-- Whitespace class of Python `str.strip` and of the regex class `\s`. -/
def isPySpace (c : Char) : Bool :=
  c = ' ' || c = '\t' || c = '\n' || c = '\r' || c = Char.ofNat 11 || c = Char.ofNat 12

/-- Python `str.strip`: drop leading and trailing whitespace. -/
def pyStrip (l : List Char) : List Char :=
  ((l.dropWhile isPySpace).reverse.dropWhile isPySpace).reverse

/-- Case-insensitive "starts with": both sides compared through `Char.toLower`. -/
def ciStarts : List Char → List Char → Bool
  | [], _ => true
  | _ :: _, [] => false
  | p :: ps, c :: cs => (p.toLower == c.toLower) && ciStarts ps cs

/-- Case-sensitive substring test (Python `in` on strings). -/
def containsSub (pat : List Char) : List Char → Bool
  | [] => pat.isEmpty
  | c :: cs => pat.isPrefixOf (c :: cs) || containsSub pat cs

/-- Case-insensitive substring test (a `re.IGNORECASE` search for a literal). -/
def containsCi (pat : List Char) : List Char → Bool
  | [] => pat.isEmpty
  | c :: cs => ciStarts pat (c :: cs) || containsCi pat cs

/-- Characters after the last `/` (Python `os.path.basename`). -/
def basenameL (l : List Char) : List Char :=
  (l.reverse.takeWhile (fun c => c != '/')).reverse

/-- Python `str.replace pat rep`: leftmost, non-overlapping, all occurrences. -/
def replaceAllFuel (pat rep : List Char) : Nat → List Char → List Char
  | _, [] => []
  | 0, l => l
  | fuel + 1, c :: cs =>
    if pat ≠ [] ∧ pat.isPrefixOf (c :: cs) then
      rep ++ replaceAllFuel pat rep fuel ((c :: cs).drop pat.length)
    else
      c :: replaceAllFuel pat rep fuel cs

def replaceAllL (pat rep s : List Char) : List Char :=
  replaceAllFuel pat rep s.length s

/-- Prefix of the input strictly before the first case-insensitive occurrence
of `pat`; `none` when `pat` does not occur.  This is the group of a lazy
`(.*?)` immediately followed by the literal `pat`. -/
def splitAtCi (pat : List Char) : List Char → Option (List Char)
  | [] => if ciStarts pat [] then some [] else none
  | c :: cs =>
    if ciStarts pat (c :: cs) then some []
    else (splitAtCi pat cs).map (fun pre => c :: pre)

/-- Suffix of the input just after the first case-insensitive occurrence of
`pat`; `none` when `pat` does not occur (position `re.search(pat, l).end()`). -/
def splitAfterCi (pat : List Char) : List Char → Option (List Char)
  | [] => if ciStarts pat [] then some [] else none
  | c :: cs =>
    if ciStarts pat (c :: cs) then some ((c :: cs).drop pat.length)
    else splitAfterCi pat cs

/-- The regex `<body[^>]*>(.*?)</body>` with `re.DOTALL | re.IGNORECASE`: the
group of its leftmost match.  Only the first `<body` occurrence needs
inspection: if it is not followed by `>` and later by `</body>`, no later
occurrence is either. -/
def extractBodyFrom : List Char → Option (List Char)
  | [] => none
  | c :: cs =>
    if ciStarts ("<body".data) (c :: cs) then
      match ((c :: cs).drop 5).dropWhile (fun d => d != '>') with
      | '>' :: r => splitAtCi ("</body>".data) r
      | _ => none
    else extractBodyFrom cs

/-- The regex search `<img\s` with `re.IGNORECASE`. -/
def hasImgSpace : List Char → Bool
  | [] => false
  | c :: cs =>
    (ciStarts ("<img".data) (c :: cs) &&
      (match (c :: cs).drop 4 with
       | d :: _ => isPySpace d
       | [] => false)) ||
    hasImgSpace cs

/-- The tag stripper `re.sub(r'<[^>]+>', '', body)`. -/
def stripTagsFuel : Nat → List Char → List Char
  | _, [] => []
  | 0, l => l
  | fuel + 1, c :: cs =>
    if c = '<' then
      match cs.takeWhile (fun d => d != '>'), cs.dropWhile (fun d => d != '>') with
      | _ :: _, _ :: r => stripTagsFuel fuel r
      | _, _ => c :: stripTagsFuel fuel cs
    else c :: stripTagsFuel fuel cs

def stripTags (l : List Char) : List Char := stripTagsFuel l.length l

/-- Scanner for the tail of the regex `<body[^>]*class="[^"]*cover[^"]*"`
(`re.IGNORECASE`), applied to the text following `<body`: within the run of
non-`>` characters some occurrence of `class="` must open a quoted value that
contains `cover` case-insensitively and is closed by a further `"`. -/
def classScan : List Char → Bool
  | [] => false
  | c :: cs =>
    if ciStarts ("class=\"".data) (c :: cs) &&
        ((((c :: cs).drop 7).dropWhile (fun d => d != '"')).length != 0 &&
          containsCi ("cover".data) (((c :: cs).drop 7).takeWhile (fun d => d != '"'))) then
      true
    else if c = '>' then false
    else classScan cs

/-- The regex search `<body[^>]*class="[^"]*cover[^"]*"` with `re.IGNORECASE`
over the whole file content. -/
def bodyClassCover : List Char → Bool
  | [] => false
  | c :: cs =>
    (ciStarts ("<body".data) (c :: cs) && classScan ((c :: cs).drop 5)) ||
    bodyClassCover cs

/-- Faithful model of `is_cover_page(html_path, item)`: `fs` is the extracted
archive, `html_path` the item's resolved path, `href` the raw manifest href.
A missing file (the code's `except Exception`) yields `false`. -/
def is_cover_page (fs : List (String × String)) (html_path href : String) : Bool :=
  if containsSub ("cover".data) (basenameL (lowerL href.data)) then
    match List.lookup html_path fs with
    | none => false
    | some content =>
      (match extractBodyFrom content.data with
       | some g =>
         hasImgSpace (pyStrip g) && decide ((pyStrip (stripTags (pyStrip g))).length < 100)
       | none => false) ||
      bodyClassCover content.data
  else false

def hrefQuoteL : List Char := "href=\"".data

def xhtmlL : List Char := ".xhtml".data

/-- Quoted-content matcher of the regex
`href="([^"#]+?\.xhtml)(?:#([^"]*?))?"`: given the text between the outer
double quotes, return the replacement content (a `#` followed by the target
with every `.xhtml` removed) when the part before the first `#` is a nonempty
stem followed by `.xhtml`. -/
def rewriteQuoted (t : List Char) : Option (List Char) :=
  let pre := t.takeWhile (fun d => d != '#')
  if xhtmlL.isSuffixOf pre ∧ 6 < pre.length then
    some ('#' :: replaceAllL xhtmlL [] pre)
  else none

/-- Split the input at its first `"`: `some (before, after)` when one exists. -/
def takeToQuote (l : List Char) : Option (List Char × List Char) :=
  match l.dropWhile (fun d => d != '"') with
  | _ :: r => some (l.takeWhile (fun d => d != '"'), r)
  | [] => none

/-- The substitution
`re.sub(r'href="([^"#]+?\.xhtml)(?:#([^"]*?))?"', lambda m: ..., body)`:
leftmost matches, non-overlapping, continuing after each match. -/
def rewriteLinksFuel : Nat → List Char → List Char
  | _, [] => []
  | 0, l => l
  | fuel + 1, c :: cs =>
    if hrefQuoteL.isPrefixOf (c :: cs) then
      match takeToQuote ((c :: cs).drop 6) with
      | some (t, rest) =>
        match rewriteQuoted t with
        | some rw => hrefQuoteL ++ rw ++ '"' :: rewriteLinksFuel fuel rest
        | none => c :: rewriteLinksFuel fuel cs
      | none => c :: rewriteLinksFuel fuel cs
    else c :: rewriteLinksFuel fuel cs

def rewriteLinksL (l : List Char) : List Char := rewriteLinksFuel l.length l

/-- Word characters of the regex class `\w` (ASCII). -/
def isWordChar (c : Char) : Bool := c.isAlphanum || c = '_'

/-- Matcher for the part after `xmlns` in `\s+xmlns(?::\w+)?="[^"]*"`: returns
the remainder after the full match. -/
def xmlnsTail (l : List Char) : Option (List Char) :=
  match l with
  | ':' :: r =>
    if (r.takeWhile isWordChar).length != 0 then
      match r.dropWhile isWordChar with
      | '=' :: '"' :: v =>
        match v.dropWhile (fun d => d != '"') with
        | _ :: r2 => some r2
        | [] => none
      | _ => none
    else none
  | '=' :: '"' :: v =>
    match v.dropWhile (fun d => d != '"') with
    | _ :: r2 => some r2
    | [] => none
  | _ => none

/-- The substitution `re.sub(r'\s+xmlns(?::\w+)?="[^"]*"', '', body)`. -/
def stripXmlnsFuel : Nat → List Char → List Char
  | _, [] => []
  | 0, l => l
  | fuel + 1, c :: cs =>
    if isPySpace c then
      match
        (if ("xmlns".data).isPrefixOf ((c :: cs).dropWhile isPySpace) then
          xmlnsTail (((c :: cs).dropWhile isPySpace).drop 5)
        else none) with
      | some r => stripXmlnsFuel fuel r
      | none => c :: stripXmlnsFuel fuel cs
    else c :: stripXmlnsFuel fuel cs

def stripXmlns (l : List Char) : List Char := stripXmlnsFuel l.length l

/-- The substitution `re.sub(r'\s+epub:type="[^"]*"', '', body)`. -/
def stripEpubTypeFuel : Nat → List Char → List Char
  | _, [] => []
  | 0, l => l
  | fuel + 1, c :: cs =>
    if isPySpace c then
      match
        (if ("epub:type=\"".data).isPrefixOf ((c :: cs).dropWhile isPySpace) then
          match (((c :: cs).dropWhile isPySpace).drop 11).dropWhile (fun d => d != '"') with
          | _ :: r2 => some r2
          | [] => none
        else none) with
      | some r => stripEpubTypeFuel fuel r
      | none => c :: stripEpubTypeFuel fuel cs
    else c :: stripEpubTypeFuel fuel cs

def stripEpubType (l : List Char) : List Char := stripEpubTypeFuel l.length l

/-- The substitution `re.sub(r'</?html[^>]*>', '', body_html, re.IGNORECASE)`. -/
def stripHtmlMarksFuel : Nat → List Char → List Char
  | _, [] => []
  | 0, l => l
  | fuel + 1, c :: cs =>
    match
      (if ciStarts ("</html".data) (c :: cs) then
        some (((c :: cs).drop 6).dropWhile (fun d => d != '>'))
      else if ciStarts ("<html".data) (c :: cs) then
        some (((c :: cs).drop 5).dropWhile (fun d => d != '>'))
      else none) with
    | some ('>' :: r) => stripHtmlMarksFuel fuel r
    | _ => c :: stripHtmlMarksFuel fuel cs

def stripHtmlMarks (l : List Char) : List Char := stripHtmlMarksFuel l.length l

/-- Matcher after `href=` inside a `<link>` tag: an opening quote of either
kind, the group `([^"\']+\.css)`, then a closing quote of either kind (the two
quote kinds are independent character classes in the source regex).  The whole
regex carries `re.IGNORECASE`, so the `.css` literal matches the extension
case-insensitively while the group keeps its original case.  Returns the
group and the remainder after the closing quote. -/
def cssHrefMatch (l : List Char) : Option (List Char × List Char) :=
  match l with
  | q :: r =>
    if q = '"' || q = Char.ofNat 39 then
      match r.dropWhile (fun d => d != '"' && d != Char.ofNat 39) with
      | _ :: rest2 =>
        if (".css".data).isSuffixOf (lowerL (r.takeWhile (fun d => d != '"' && d != Char.ofNat 39))) ∧
            4 < (r.takeWhile (fun d => d != '"' && d != Char.ofNat 39)).length then
          some (r.takeWhile (fun d => d != '"' && d != Char.ofNat 39), rest2)
        else none
      | [] => none
    else none
  | [] => none

/-- Greedy search for the `href=` + CSS-reference candidate inside the non-`>`
run of one `<link` tag: the regex `[^>]+` is greedy, so when several `href=`
candidates occur in one tag the last viable one is matched. -/
def lastHrefMatch : List Char → Option (List Char × List Char)
  | [] => none
  | c :: cs =>
    if c = '>' then none
    else
      match lastHrefMatch cs with
      | some res => some res
      | none =>
        if ciStarts ("href=".data) (c :: cs) then cssHrefMatch ((c :: cs).drop 5)
        else none

/-- Per-`<link` matcher: `[^>]+` requires at least one character between
`<link` and `href=`. -/
def linkMatch : List Char → Option (List Char × List Char)
  | [] => none
  | c :: cs => if c = '>' then none else lastHrefMatch cs

/-- The scan `re.finditer(r'<link[^>]+href=["\']([^"\']+\.css)["\']', content,
re.IGNORECASE)`: the list of group-1 values in match order. -/
def collectCssRefsFuel : Nat → List Char → List (List Char)
  | _, [] => []
  | 0, _ => []
  | fuel + 1, c :: cs =>
    if ciStarts ("<link".data) (c :: cs) then
      match linkMatch ((c :: cs).drop 5) with
      | some (g, rest) => g :: collectCssRefsFuel fuel rest
      | none => collectCssRefsFuel fuel cs
    else collectCssRefsFuel fuel cs

def collectCssRefs (l : List Char) : List (List Char) := collectCssRefsFuel l.length l

/-- Python `posixpath.dirname`. -/
def dirname (p : String) : String :=
  let head := (p.data.reverse.dropWhile (fun d => d != '/')).reverse
  if head.all (fun d => d = '/') then String.mk head
  else String.mk ((head.reverse.dropWhile (fun d => d = '/')).reverse)

/-- Whether a path starts with `/` (character-level, so that every path
operation evaluates inside the kernel). -/
def startsWithSlash (s : String) : Bool :=
  match s.data with
  | c :: _ => c = '/'
  | [] => false

/-- Whether a path ends with `/`. -/
def endsWithSlash (s : String) : Bool :=
  match s.data.getLast? with
  | some c => c = '/'
  | none => false

/-- Python `str.split('/')`. -/
def splitSlash : List Char → List (List Char)
  | [] => [[]]
  | c :: cs =>
    if c = '/' then [] :: splitSlash cs
    else
      match splitSlash cs with
      | h :: t => (c :: h) :: t
      | [] => [[c]]

/-- Join path components with `/`. -/
def intercalateSlash : List (List Char) → List Char
  | [] => []
  | [x] => x
  | x :: y :: rest => x ++ '/' :: intercalateSlash (y :: rest)

/-- Python `posixpath.join` for two components. -/
def joinPath (a b : String) : String :=
  if startsWithSlash b then b
  else if a = "" || endsWithSlash a then a ++ b
  else a ++ "/" ++ b

/-- Python `posixpath.normpath` (without the special two-leading-slash case,
which no modelled input exercises). -/
def normpath (p : String) : String :=
  if p = "" then "." else
  let isAbs := startsWithSlash p
  let stack := ((splitSlash p.data).filter (fun c => c ≠ [] ∧ c ≠ ['.'])).foldl
    (fun st c =>
      if c = ['.', '.'] then
        if isAbs then st.dropLast
        else
          match st.getLast? with
          | some t => if t ≠ ['.', '.'] then st.dropLast else st ++ [c]
          | none => st ++ [c]
      else st ++ [c]) []
  let res := if isAbs then '/' :: intercalateSlash stack else intercalateSlash stack
  if res = [] then "." else String.mk res

/-- `os.path.normpath(os.path.join(dir, rel))`. -/
def resolveUnder (dir rel : String) : String := normpath (joinPath dir rel)

/-- One manifest entry as built by `parse_opf` (`href`, `media-type`,
`properties`, resolved `full_path`). -/
structure ManifestItem where
  href : String
  media_type : String
  properties : String
  full_path : String
deriving DecidableEq

/-- One per-chapter container of the flattened document: the synthesized
anchor id, the page-break class and the processed body. -/
structure Block where
  anchor_id : String
  cls : String
  body : String
deriving DecidableEq

/-- Body extraction of `build_combined_html`: the `<body>` group, else
everything after `</head>` with `</?html...>` markers removed, else the whole
file content. -/
def processBody (content : List Char) : List Char :=
  match extractBodyFrom content with
  | some g => g
  | none =>
    match splitAfterCi ("</head>".data) content with
    | some rest => stripHtmlMarks rest
    | none => content

/-- Anchor id synthesis:
`os.path.basename(href).replace('.xhtml', '').replace('.html', '')`. -/
def anchorIdOf (href : String) : String :=
  String.mk (replaceAllL (".html".data) [] (replaceAllL (".xhtml".data) [] (basenameL href.data)))

/-- The chapter loop of `build_combined_html`; `i` is the `enumerate` index
and `skipped` the `skipped_cover` flag. -/
def buildBlocks (fs : List (String × String)) (skip_cover : Bool) :
    List ManifestItem → Nat → Bool → List Block
  | [], _, _ => []
  | item :: rest, i, skipped =>
    match List.lookup item.full_path fs with
    | none => buildBlocks fs skip_cover rest (i + 1) skipped
    | some content =>
      if skip_cover && !skipped && is_cover_page fs item.full_path item.href then
        buildBlocks fs skip_cover rest (i + 1) true
      else
        ⟨anchorIdOf item.href,
         if i > 0 then "epub-chapter-break" else "epub-chapter-first",
         String.mk (stripEpubType (stripXmlns (rewriteLinksL (processBody content.data))))⟩ ::
          buildBlocks fs skip_cover rest (i + 1) skipped

/-- The stylesheet-collection side of the chapter loop: CSS hrefs of each
surviving chapter, resolved against the chapter's directory, kept when the
resolved path exists. -/
def collectCss (fs : List (String × String)) (skip_cover : Bool) :
    List ManifestItem → Bool → List String
  | [], _ => []
  | item :: rest, skipped =>
    match List.lookup item.full_path fs with
    | none => collectCss fs skip_cover rest skipped
    | some content =>
      if skip_cover && !skipped && is_cover_page fs item.full_path item.href then
        collectCss fs skip_cover rest true
      else
        ((collectCssRefs content.data).map
            (fun g => resolveUnder (dirname item.full_path) (String.mk g))).filter
          (fun p => (List.lookup p fs).isSome) ++
        collectCss fs skip_cover rest skipped

/-- The flattened document: per-chapter blocks plus the stylesheet list. -/
structure FlattenedDoc where
  blocks : List Block
  css : List String
deriving DecidableEq

/-- `build_combined_html(spine, opf_dir, skip_cover)`: the per-chapter blocks
in spine order and the de-duplicated, lexicographically sorted stylesheet list
(`sorted(all_css)` over the Python set). -/
def build_combined (fs : List (String × String)) (spine : List ManifestItem)
    (skip_cover : Bool) : FlattenedDoc :=
  ⟨buildBlocks fs skip_cover spine 0 false,
   List.insertionSort (fun a b => a ≤ b) ((collectCss fs skip_cover spine false).dedup)⟩

/-- A parsed XML element (the view `xml.etree.ElementTree` offers to this
program: tag with namespace braces, attributes, text, children). -/
inductive Xml where
  | elem (tag : String) (attrs : List (String × String)) (text : Option String)
      (children : List Xml)

def Xml.tag : Xml → String
  | .elem t _ _ _ => t

def Xml.attrs : Xml → List (String × String)
  | .elem _ a _ _ => a

def Xml.text : Xml → Option String
  | .elem _ _ s _ => s

def Xml.children : Xml → List Xml
  | .elem _ _ _ ch => ch

mutual

/-- Document-order (preorder) iteration over an element and its descendants:
`Element.iter`. -/
def iterAll (x : Xml) : List Xml :=
  match x with
  | .elem t a s ch => .elem t a s ch :: iterAllList ch

def iterAllList (xs : List Xml) : List Xml :=
  match xs with
  | [] => []
  | x :: rest => iterAll x ++ iterAllList rest

end

/-- Attribute access `elem.get(key)`. -/
def attrGet (e : Xml) (k : String) : Option String := List.lookup k e.attrs

def lbrace : Char := Char.ofNat 123

def rbrace : Char := Char.ofNat 125

/-- The namespace-brace detection `re.match(r'\{.*\}', root.tag)`: greedy `.*`
does not cross a newline, so the match runs to the last closing brace on the
first line, anchored at an opening brace in position zero. -/
def nsPrefixOf (tag : String) : String :=
  let line := tag.data.takeWhile (fun d => d != '\n')
  match line with
  | c :: _ =>
    if c = lbrace ∧ rbrace ∈ line then
      String.mk ((line.reverse.dropWhile (fun d => d != rbrace)).reverse)
    else ""
  | [] => ""

def dcTitleTag : String := "\x7bhttp://purl.org/dc/elements/1.1/\x7dtitle"

def dcCreatorTag : String := "\x7bhttp://purl.org/dc/elements/1.1/\x7dcreator"

def containerRootfileTag : String :=
  "\x7burn:oasis:names:tc:opendocument:xmlns:container\x7drootfile"

/-- Document metadata; a field is `some t` when the key was assigned (`t` is
the element's text, itself optional since `elem.text` can be `None`). -/
structure DocMetadata where
  title : Option (Option String)
  creator : Option (Option String)
deriving DecidableEq

/-- The two metadata loops of `parse_opf`: each `dc:title` / `dc:creator`
element assigns the corresponding key, so a later occurrence overwrites an
earlier one. -/
def extractDcMeta (elems : List Xml) : DocMetadata :=
  ⟨elems.foldl (fun acc e => if e.tag == dcTitleTag then some e.text else acc) none,
   elems.foldl (fun acc e => if e.tag == dcCreatorTag then some e.text else acc) none⟩

/-- Error kinds, named as in the specification.  In the code:
`malformedArchive` is the `FileNotFoundError` raised for a missing
`META-INF/container.xml` (or a corrupt ZIP), `missingPackageDocument` the
`ValueError` raised when `container.xml` has no rootfile entry,
`malformedPackageDocument` a failure to read or parse the package document,
and the last two are failures of the external collaborators. -/
inductive ConvError where
  | malformedArchive
  | missingPackageDocument
  | malformedPackageDocument
  | renderTimeout
  | mergeFailure
deriving DecidableEq

/-- An extracted archive: raw text files plus, for the XML documents the
parser reads, their parse results (`ET.parse` output per path). -/
structure Archive where
  files : List (String × String)
  containerXml : Option Xml
  opfFiles : List (String × Xml)

/-- Result tuple of `parse_opf`:
`(spine, manifest, metadata, opf_dir, cover_image_path)`. -/
structure OpfResult where
  spine : List ManifestItem
  manifest : List (Option String × ManifestItem)
  metadata : DocMetadata
  opf_dir : String
  cover_image_path : Option String

/-- Python-dict insertion for the manifest: overwrite in place on a repeated
id, append otherwise. -/
def manifestUpsert (m : List (Option String × ManifestItem)) (k : Option String)
    (v : ManifestItem) : List (Option String × ManifestItem) :=
  if m.any (fun p => p.1 == k) then
    m.map (fun p => if p.1 == k then (k, v) else p)
  else m ++ [(k, v)]

/-- Faithful model of `parse_opf(extract_dir)`.  The container and package
documents arrive already parsed (XML parsing is the external `xml.etree`
collaborator); a missing or unparseable package document is
`malformedPackageDocument`.  An `<item>` without an `href` attribute is
modelled with href `""` (the code would raise a `TypeError` inside
`os.path.join`; no claim exercises this). -/
def parse_opf (a : Archive) (extract_dir : String) : Except ConvError OpfResult :=
  match a.containerXml with
  | none => .error .malformedArchive
  | some container =>
    match (iterAllList container.children).find? (fun e => e.tag == containerRootfileTag) with
    | none => .error .missingPackageDocument
    | some rootfile =>
      let opf_path := joinPath extract_dir ((attrGet rootfile "full-path").getD "")
      let opf_dir := dirname opf_path
      match List.lookup opf_path a.opfFiles with
      | none => .error .malformedPackageDocument
      | some root =>
        let ns := nsPrefixOf root.tag
        let manifest := ((iterAll root).filter (fun e => e.tag == ns ++ "item")).foldl
          (fun m item =>
            let href := (attrGet item "href").getD ""
            manifestUpsert m (attrGet item "id")
              ⟨href, (attrGet item "media-type").getD "",
               (attrGet item "properties").getD "", normpath (joinPath opf_dir href)⟩) []
        let spine := ((iterAll root).filter (fun e => e.tag == ns ++ "itemref")).filterMap
          (fun ir => List.lookup (attrGet ir "idref") manifest)
        let cover :=
          match manifest.find? (fun p => containsSub ("cover-image".data) p.2.properties.data) with
          | some p => some p.2.full_path
          | none =>
            ((iterAll root).filter (fun e => e.tag == ns ++ "meta")).findSome?
              (fun m =>
                if attrGet m "name" == some "cover" then
                  (List.lookup (attrGet m "content") manifest).map (fun it => it.full_path)
                else none)
        .ok ⟨spine, manifest, extractDcMeta (iterAll root), opf_dir, cover⟩

/-- The driver `epub_to_pdf`, at the granularity of its pipeline stages.  The
external collaborators are supplied as outcomes: `extractResult` (ZIP
extraction), `coverResult` (`create_cover_pdf`, run only when a cover image
was resolved to an existing file), `renderResult` (Chromium print),
`mergeResult` (pypdf merge + metadata + write).  The returned `Bool` records
the `finally: shutil.rmtree(extract_dir, ignore_errors=True)` cleanup, which
runs on every exit path. -/
def epub_to_pdf_run (extractResult : Except ConvError Archive) (extract_dir : String)
    (coverResult renderResult mergeResult : Except ConvError Unit) :
    Except ConvError FlattenedDoc × Bool :=
  let body : Except ConvError FlattenedDoc :=
    match extractResult with
    | .error e => .error e
    | .ok a =>
      match parse_opf a extract_dir with
      | .error e => .error e
      | .ok r =>
        let covstep : Except ConvError Bool :=
          match r.cover_image_path with
          | some p =>
            if (List.lookup p a.files).isSome then
              match coverResult with
              | .error e => .error e
              | .ok _ => .ok true
            else .ok false
          | none => .ok false
        match covstep with
        | .error e => .error e
        | .ok hasCover =>
          match renderResult with
          | .error e => .error e
          | .ok _ =>
            match mergeResult with
            | .error e => .error e
            | .ok _ => .ok (build_combined a.files r.spine hasCover)
  (body, true)

/-- Resized pixel dimensions `(new_w, new_h)` of `create_cover_pdf` at the
default trim (5.5in x 8.5in, 150 DPI): `int(5.5*150) = 825` and
`int(8.5*150) = 1275`, both exact in floating point.  Python float arithmetic
is modelled by exact rational arithmetic and `int()` by `Int.floor` (equal to
truncation for the nonnegative values that arise); at every input evaluated
by a claim, IEEE double evaluation yields the same integers. -/
def coverResize (img_w img_h : ℕ) : ℤ × ℤ :=
  let img_aspect : ℚ := (img_w : ℚ) / (img_h : ℚ)
  if (825 : ℚ) / 1275 < img_aspect then
    (⌊(1275 : ℚ) * img_aspect⌋, 1275)
  else
    (825, ⌊(825 : ℚ) / img_aspect⌋)

/-- Center-crop box `(left, top, left + 825, top + 1275)` of
`create_cover_pdf`; Python `//` is floor division, `Int.fdiv`. -/
def coverCrop (nw nh : ℤ) : ℤ × ℤ × ℤ × ℤ :=
  (Int.fdiv (nw - 825) 2, Int.fdiv (nh - 1275) 2,
   Int.fdiv (nw - 825) 2 + 825, Int.fdiv (nh - 1275) 2 + 1275)

/-- Pixels removed by the center crop on each side, as
`(left, right, top, bottom)`. -/
def cropRemoved (nw nh : ℤ) : ℤ × ℤ × ℤ × ℤ :=
  (Int.fdiv (nw - 825) 2, nw - (Int.fdiv (nw - 825) 2 + 825),
   Int.fdiv (nh - 1275) 2, nh - (Int.fdiv (nh - 1275) 2 + 1275))

/-- Check that no suffix of the input begins with `href="`, i.e. the link
rewriting of `build_combined_html` has nothing to match. -/
def noHrefAt : List Char → Bool
  | [] => true
  | c :: cs => !hrefQuoteL.isPrefixOf (c :: cs) && noHrefAt cs

/-- Number of spine entries whose resolved file exists. -/
def countExisting (fs : List (String × String)) (spine : List ManifestItem) : Nat :=
  (spine.filter (fun it => (List.lookup it.full_path fs).isSome)).length

/-- Whether some spine item is flagged by the cover-page detector (a flagged
item necessarily has an existing file). -/
def anyCover (fs : List (String × String)) (spine : List ManifestItem) : Bool :=
  spine.any (fun it => is_cover_page fs it.full_path it.href)

theorem dropWhileLenLe {α : Type} (p : α → Bool) (l : List α) :
    (l.dropWhile p).length ≤ l.length := by
  induction l with
  | nil => simp
  | cons c cs ih =>
    by_cases h : p c
    · simpa [List.dropWhile_cons, h] using Nat.le_succ_of_le ih
    · simp [List.dropWhile_cons, h]

theorem containsSubSpec (pat l : List Char) : containsSub pat l = true ↔ pat <:+: l := by
  induction l with
  | nil => simp [containsSub, List.isEmpty_iff]
  | cons c cs ih =>
    simp [containsSub, ih, List.infix_cons_iff, List.isPrefixOf_iff_prefix]

theorem takeWhile_append_all {α : Type} {p : α → Bool} {l r : List α}
    (h : ∀ c ∈ l, p c = true) : (l ++ r).takeWhile p = l ++ r.takeWhile p := by
  induction l with
  | nil => simp
  | cons c cs ih =>
    have hc := h c (by simp)
    simp only [List.cons_append, List.takeWhile_cons, hc, ih (fun d hd => h d (by simp [hd]))]
    simp

theorem dropWhile_append_all {α : Type} {p : α → Bool} {l r : List α}
    (h : ∀ c ∈ l, p c = true) : (l ++ r).dropWhile p = r.dropWhile p := by
  induction l with
  | nil => simp
  | cons c cs ih =>
    have hc := h c (by simp)
    simp only [List.cons_append, List.dropWhile_cons, hc, ih (fun d hd => h d (by simp [hd]))]
    simp

theorem takeToQuoteLenLt {l t rest : List Char} (h : takeToQuote l = some (t, rest)) :
    rest.length < l.length := by
  unfold takeToQuote at h
  cases hd : l.dropWhile (fun d => d != '"') with
  | nil => rw [hd] at h; simp at h
  | cons q r =>
    rw [hd] at h
    have hr : rest = r := by simp at h; exact h.2.symm
    have := dropWhileLenLe (fun d => d != '"') l
    rw [hd] at this
    simp only [List.length_cons] at this
    rw [hr]
    omega

theorem rewriteLinksFuelStepSkip {fuel : Nat} {c : Char} {cs : List Char}
    (hp : hrefQuoteL.isPrefixOf (c :: cs) = false) :
    rewriteLinksFuel (fuel + 1) (c :: cs) = c :: rewriteLinksFuel fuel cs := by
  simp [rewriteLinksFuel, hp]

theorem rewriteLinksFuelStepHit {fuel : Nat} {c : Char} {cs t rest rw : List Char}
    (hp : hrefQuoteL.isPrefixOf (c :: cs) = true)
    (hq : takeToQuote ((c :: cs).drop 6) = some (t, rest))
    (hr : rewriteQuoted t = some rw) :
    rewriteLinksFuel (fuel + 1) (c :: cs) =
      hrefQuoteL ++ rw ++ '"' :: rewriteLinksFuel fuel rest := by
  have hq' : takeToQuote (List.drop 5 cs) = some (t, rest) := hq
  simp [rewriteLinksFuel, hp, hq', hr]

theorem rewriteLinksFuelStepMiss {fuel : Nat} {c : Char} {cs t rest : List Char}
    (hp : hrefQuoteL.isPrefixOf (c :: cs) = true)
    (hq : takeToQuote ((c :: cs).drop 6) = some (t, rest))
    (hr : rewriteQuoted t = none) :
    rewriteLinksFuel (fuel + 1) (c :: cs) = c :: rewriteLinksFuel fuel cs := by
  have hq' : takeToQuote (List.drop 5 cs) = some (t, rest) := hq
  simp [rewriteLinksFuel, hp, hq', hr]

theorem rewriteLinksFuelStepNoQuote {fuel : Nat} {c : Char} {cs : List Char}
    (hp : hrefQuoteL.isPrefixOf (c :: cs) = true)
    (hq : takeToQuote ((c :: cs).drop 6) = none) :
    rewriteLinksFuel (fuel + 1) (c :: cs) = c :: rewriteLinksFuel fuel cs := by
  have hq' : takeToQuote (List.drop 5 cs) = none := hq
  simp [rewriteLinksFuel, hp, hq']

theorem rewriteLinksFuelCongr : ∀ (f₁ f₂ : Nat) (l : List Char), l.length ≤ f₁ →
    l.length ≤ f₂ → rewriteLinksFuel f₁ l = rewriteLinksFuel f₂ l := by
  intro f₁
  induction f₁ with
  | zero =>
    intro f₂ l h1 _
    have hl : l = [] := List.length_eq_zero.mp (Nat.le_zero.mp h1)
    subst hl
    cases f₂ <;> rfl
  | succ f ih =>
    intro f₂ l h1 h2
    cases l with
    | nil => cases f₂ <;> rfl
    | cons c cs =>
      cases f₂ with
      | zero => simp at h2
      | succ g =>
        simp only [List.length_cons] at h1 h2
        by_cases hp : hrefQuoteL.isPrefixOf (c :: cs) = true
        · cases hq : takeToQuote ((c :: cs).drop 6) with
          | none =>
            rw [rewriteLinksFuelStepNoQuote hp hq, rewriteLinksFuelStepNoQuote hp hq,
              ih g cs (by omega) (by omega)]
          | some pr =>
            obtain ⟨t, rest⟩ := pr
            cases hr : rewriteQuoted t with
            | none =>
              rw [rewriteLinksFuelStepMiss hp hq hr, rewriteLinksFuelStepMiss hp hq hr,
                ih g cs (by omega) (by omega)]
            | some rw0 =>
              have hlt := takeToQuoteLenLt hq
              simp only [List.length_drop, List.length_cons] at hlt
              rw [rewriteLinksFuelStepHit hp hq hr, rewriteLinksFuelStepHit hp hq hr,
                ih g rest (by omega) (by omega)]
        · have hp' : hrefQuoteL.isPrefixOf (c :: cs) = false := Bool.eq_false_iff.mpr hp
          rw [rewriteLinksFuelStepSkip hp', rewriteLinksFuelStepSkip hp',
            ih g cs (by omega) (by omega)]

theorem noHrefAt_eq_not_contains (l : List Char) : noHrefAt l = !containsSub hrefQuoteL l := by
  induction l with
  | nil => rfl
  | cons c cs ih => simp [noHrefAt, containsSub, ih]

theorem rewriteLinksFuelId : ∀ (fuel : Nat) (l : List Char), noHrefAt l = true →
    rewriteLinksFuel fuel l = l := by
  intro fuel
  induction fuel with
  | zero => intro l _; cases l <;> rfl
  | succ f ih =>
    intro l h
    cases l with
    | nil => rfl
    | cons c cs =>
      simp only [noHrefAt, Bool.and_eq_true, Bool.not_eq_true'] at h
      rw [rewriteLinksFuelStepSkip h.1, ih cs h.2]

theorem rewriteLinksIdOfNoHref {l : List Char} (h : noHrefAt l = true) :
    rewriteLinksL l = l :=
  rewriteLinksFuelId _ l h

theorem noHrefAt_mid : ∀ (t : List Char), (∀ c ∈ t, c ≠ '"') →
    (∀ u : List Char, t ≠ u ++ "href=".data) → noHrefAt (t ++ ['"']) = true := by
  intro t
  induction t with
  | nil => intro _ _; decide
  | cons c cs ih =>
    intro hq hne
    rw [List.cons_append]
    simp only [noHrefAt, Bool.and_eq_true, Bool.not_eq_true']
    refine ⟨?_, ih (fun d hd => hq d (by simp [hd])) (fun u hu => hne (c :: u) (by simp [hu]))⟩
    by_contra hcp
    have hpre : hrefQuoteL <+: ((c :: cs) ++ ['"']) := by
      rw [List.cons_append]
      exact List.isPrefixOf_iff_prefix.mp (by simpa using hcp)
    rcases Nat.lt_or_ge (c :: cs).length 6 with hlen | hlen
    · have hlp : (6 : Nat) ≤ ((c :: cs) ++ ['"']).length := hpre.length_le
      have hlen6 : ((c :: cs) ++ ['"']).length = 6 := by
        simp only [List.length_append, List.length_cons, List.length_nil] at hlp ⊢
        simp only [List.length_cons] at hlen
        omega
      have heq : hrefQuoteL = (c :: cs) ++ ['"'] :=
        List.IsPrefix.eq_of_length hpre (by rw [hlen6]; rfl)
      have heq2 : "href=".data ++ ['"'] = (c :: cs) ++ ['"'] := heq
      have hcs : "href=".data = c :: cs := List.append_cancel_right heq2
      exact hne [] (by simpa using hcs.symm)
    · have htake : ((c :: cs) ++ ['"']).take 6 = hrefQuoteL :=
        (List.prefix_iff_eq_take.mp hpre).symm
      have htake2 : ((c :: cs) ++ ['"']).take 6 = (c :: cs).take 6 :=
        List.take_append_of_le_length hlen
      have hmem : '"' ∈ (c :: cs).take 6 := by
        rw [← htake2, htake]
        decide
      exact absurd rfl (hq _ (List.mem_of_mem_take hmem))

theorem takeWhile_all {α : Type} {p : α → Bool} {l : List α} (h : ∀ c ∈ l, p c = true) :
    l.takeWhile p = l := List.takeWhile_eq_self_iff.mpr h

theorem noHrefAt_refquote (t : List Char) (h : noHrefAt (t ++ ['"']) = true) :
    noHrefAt ("ref=\"".data ++ (t ++ ['"'])) = true := by
  have he : ("ref=\"".data ++ (t ++ ['"'])) = 'r' :: 'e' :: 'f' :: '=' :: '"' :: (t ++ ['"']) := rfl
  rw [he]
  simp only [noHrefAt, Bool.and_eq_true, Bool.not_eq_true']
  refine ⟨by simp [List.isPrefixOf], by simp [List.isPrefixOf], by simp [List.isPrefixOf],
    by simp [List.isPrefixOf], by simp [List.isPrefixOf], h⟩

theorem rewriteLinksHitLemma (t fp rest : List Char)
    (ht : ∀ c ∈ t, c ≠ '"' ∧ c ≠ '#')
    (hsuf : xhtmlL.isSuffixOf t = true) (hlen : 6 < t.length)
    (hfp : fp = [] ∨ ∃ f, fp = '#' :: f ∧ ∀ c ∈ f, c ≠ '"') :
    rewriteLinksL (hrefQuoteL ++ t ++ fp ++ '"' :: rest) =
      hrefQuoteL ++ '#' :: replaceAllL xhtmlL [] t ++ '"' :: rewriteLinksL rest := by
  have hXq : ∀ c ∈ t ++ fp, (c != '"') = true := by
    intro c hc
    rcases List.mem_append.mp hc with h | h
    · simpa using (ht c h).1
    · rcases hfp with rfl | ⟨f, rfl, hf⟩
      · simp at h
      · rcases List.mem_cons.mp h with rfl | hmem
        · decide
        · simpa using hf c hmem
  have hq : takeToQuote ((t ++ fp) ++ '"' :: rest) = some (t ++ fp, rest) := by
    unfold takeToQuote
    rw [dropWhile_append_all hXq, takeWhile_append_all hXq]
    simp
  rw [List.append_assoc] at hq
  have hpre : (t ++ fp).takeWhile (fun d => d != '#') = t := by
    rcases hfp with rfl | ⟨f, rfl, hf⟩
    · rw [List.append_nil]
      exact takeWhile_all (fun c hc => by simpa using (ht c hc).2)
    · rw [takeWhile_append_all (fun c hc => by simpa using (ht c hc).2)]
      simp [List.takeWhile_cons]
  have hr : rewriteQuoted (t ++ fp) = some ('#' :: replaceAllL xhtmlL [] t) := by
    show (if xhtmlL.isSuffixOf ((t ++ fp).takeWhile (fun d => d != '#')) ∧
        6 < ((t ++ fp).takeWhile (fun d => d != '#')).length then
      some ('#' :: replaceAllL xhtmlL [] ((t ++ fp).takeWhile (fun d => d != '#'))) else none) =
      some ('#' :: replaceAllL xhtmlL [] t)
    rw [hpre, if_pos ⟨hsuf, hlen⟩]
  have hL : hrefQuoteL ++ t ++ fp ++ '"' :: rest =
      'h' :: ("ref=\"".data ++ (t ++ (fp ++ '"' :: rest))) := by
    rw [List.append_assoc, List.append_assoc]
    rfl
  have hp : hrefQuoteL.isPrefixOf ('h' :: ("ref=\"".data ++ (t ++ (fp ++ '"' :: rest)))) = true :=
    List.isPrefixOf_iff_prefix.mpr (List.prefix_append hrefQuoteL (t ++ (fp ++ '"' :: rest)))
  have hq2 : takeToQuote (('h' :: ("ref=\"".data ++ (t ++ (fp ++ '"' :: rest)))).drop 6) =
      some (t ++ fp, rest) := hq
  unfold rewriteLinksL
  rw [hL, List.length_cons]
  rw [rewriteLinksFuelStepHit hp hq2 hr]
  have hcong : rewriteLinksFuel (("ref=\"".data ++ (t ++ (fp ++ '"' :: rest))).length) rest =
      rewriteLinksFuel rest.length rest :=
    rewriteLinksFuelCongr _ _ rest
      (by simp only [List.length_append, List.length_cons]; omega) le_rfl
  rw [hcong]

theorem rewriteLinksHtmlIdLemma (t : List Char)
    (ht : ∀ c ∈ t, c ≠ '"' ∧ c ≠ '#')
    (hsuf : (".html".data).isSuffixOf t = true) :
    rewriteLinksL (hrefQuoteL ++ t ++ ['"']) = hrefQuoteL ++ t ++ ['"'] := by
  have hq0 : ∀ c ∈ t, (c != '"') = true := fun c hc => by simpa using (ht c hc).1
  have hsufP : (".html".data) <:+ t := List.isSuffixOf_iff_suffix.mp hsuf
  have hne : ∀ u : List Char, t ≠ u ++ "href=".data := by
    intro u hu
    obtain ⟨v, hv⟩ := hsufP
    have h1 : t.getLast? = some 'l' := by
      rw [← hv, List.getLast?_append_of_ne_nil _ (by simp)]
      rfl
    have h2 : t.getLast? = some '=' := by
      rw [hu, List.getLast?_append_of_ne_nil _ (by simp)]
      rfl
    rw [h1] at h2
    simp at h2
  have hx : xhtmlL.isSuffixOf t = false := by
    by_contra hxx
    have hxx0 : xhtmlL.isSuffixOf t = true := by
      cases hb : xhtmlL.isSuffixOf t
      · exact absurd hb hxx
      · rfl
    have hxx' : xhtmlL <:+ t := List.isSuffixOf_iff_suffix.mp hxx0
    have hbad : (".html".data) <:+ xhtmlL :=
      List.suffix_of_suffix_length_le hsufP hxx' (by decide)
    exact absurd hbad (by decide)
  have hq : takeToQuote (t ++ '"' :: ([] : List Char)) = some (t, []) := by
    unfold takeToQuote
    rw [dropWhile_append_all hq0, takeWhile_append_all hq0]
    simp
  have hr : rewriteQuoted t = none := by
    have hpre : t.takeWhile (fun d => d != '#') = t :=
      takeWhile_all (fun c hc => by simpa using (ht c hc).2)
    show (if xhtmlL.isSuffixOf (t.takeWhile (fun d => d != '#')) ∧
        6 < (t.takeWhile (fun d => d != '#')).length then
      some ('#' :: replaceAllL xhtmlL [] (t.takeWhile (fun d => d != '#'))) else none) = none
    rw [hpre, if_neg]
    intro hcond
    rw [hx] at hcond
    exact Bool.false_ne_true hcond.1
  have hL : hrefQuoteL ++ t ++ ['"'] = 'h' :: ("ref=\"".data ++ (t ++ ['"'])) := by
    rw [List.append_assoc]
    rfl
  have hp : hrefQuoteL.isPrefixOf ('h' :: ("ref=\"".data ++ (t ++ ['"']))) = true :=
    List.isPrefixOf_iff_prefix.mpr (List.prefix_append hrefQuoteL (t ++ ['"']))
  have hq2 : takeToQuote (('h' :: ("ref=\"".data ++ (t ++ ['"']))).drop 6) = some (t, []) := hq
  unfold rewriteLinksL
  rw [hL, List.length_cons]
  rw [rewriteLinksFuelStepMiss hp hq2 hr]
  rw [rewriteLinksFuelId _ _ (noHrefAt_refquote t (noHrefAt_mid t
    (fun c hc => (ht c hc).1) hne))]

theorem is_cover_page_isSome {fs : List (String × String)} {path href : String}
    (h : is_cover_page fs path href = true) : (List.lookup path fs).isSome = true := by
  unfold is_cover_page at h
  by_cases hc : containsSub ("cover".data) (basenameL (lowerL href.data)) = true
  · rw [if_pos hc] at h
    cases hl : List.lookup path fs with
    | none => rw [hl] at h; exact absurd h (by simp)
    | some c => simp
  · rw [if_neg hc] at h
    exact absurd h (by simp)

theorem anyCoverCountPos {fs : List (String × String)} {spine : List ManifestItem}
    (h : anyCover fs spine = true) : 1 ≤ countExisting fs spine := by
  obtain ⟨it, hmem, hflag⟩ := List.any_eq_true.mp h
  have hm : it ∈ spine.filter (fun x => (List.lookup x.full_path fs).isSome) :=
    List.mem_filter.mpr ⟨hmem, is_cover_page_isSome hflag⟩
  have hne : spine.filter (fun x => (List.lookup x.full_path fs).isSome) ≠ [] :=
    List.ne_nil_of_mem hm
  unfold countExisting
  have := List.length_pos.mpr hne
  omega

theorem buildBlocksLenSkipped (fs : List (String × String)) (sc : Bool) :
    ∀ (spine : List ManifestItem) (i : Nat),
      (buildBlocks fs sc spine i true).length = countExisting fs spine := by
  intro spine
  induction spine with
  | nil => intro i; rfl
  | cons item rest ih =>
    intro i
    cases hlk : List.lookup item.full_path fs with
    | none =>
      simp only [buildBlocks, hlk]
      rw [ih (i + 1)]
      simp [countExisting, List.filter_cons, hlk]
    | some content =>
      simp only [buildBlocks, hlk, Bool.not_true, Bool.and_false, Bool.false_and,
        Bool.false_eq_true, if_false, List.length_cons]
      rw [ih (i + 1)]
      simp [countExisting, List.filter_cons, hlk]

theorem buildBlocksLen (fs : List (String × String)) (sc : Bool) :
    ∀ (spine : List ManifestItem) (i : Nat),
      (buildBlocks fs sc spine i false).length =
        countExisting fs spine - (if sc = true ∧ anyCover fs spine = true then 1 else 0) := by
  intro spine
  induction spine with
  | nil => intro i; simp [buildBlocks, countExisting, anyCover]
  | cons item rest ih =>
    intro i
    cases hlk : List.lookup item.full_path fs with
    | none =>
      have hflag : is_cover_page fs item.full_path item.href = false := by
        cases hb : is_cover_page fs item.full_path item.href
        · rfl
        · have := is_cover_page_isSome hb
          rw [hlk] at this
          exact absurd this (by simp)
      simp only [buildBlocks, hlk]
      rw [ih (i + 1)]
      have h1 : countExisting fs (item :: rest) = countExisting fs rest := by
        simp [countExisting, List.filter_cons, hlk]
      have h2 : anyCover fs (item :: rest) = anyCover fs rest := by
        simp [anyCover, hflag]
      rw [h1, h2]
    | some content =>
      by_cases hcond : (sc && !false && is_cover_page fs item.full_path item.href) = true
      · simp only [buildBlocks, hlk, hcond, if_true]
        rw [buildBlocksLenSkipped fs sc rest (i + 1)]
        have hcond2 := hcond
        simp only [Bool.and_eq_true, Bool.not_eq_true', Bool.false_eq_true] at hcond2
        have hsc : sc = true := hcond2.1.1
        have hflag : is_cover_page fs item.full_path item.href = true := hcond2.2
        have hany : anyCover fs (item :: rest) = true := by
          simp [anyCover, hflag]
        rw [if_pos ⟨hsc, hany⟩]
        simp [countExisting, List.filter_cons, hlk]
      · have hcond' : (sc && !false && is_cover_page fs item.full_path item.href) = false :=
          Bool.eq_false_iff.mpr hcond
        simp only [buildBlocks, hlk, hcond', Bool.false_eq_true, if_false, List.length_cons]
        rw [ih (i + 1)]
        have h1 : countExisting fs (item :: rest) = countExisting fs rest + 1 := by
          simp [countExisting, List.filter_cons, hlk]
        rw [h1]
        by_cases hsc : sc = true
        · have hflag : is_cover_page fs item.full_path item.href = false := by
            cases hb : is_cover_page fs item.full_path item.href
            · rfl
            · exact absurd (by simp [hsc, hb]) hcond
          have h2 : anyCover fs (item :: rest) = anyCover fs rest := by
            simp [anyCover, hflag]
          rw [h2]
          by_cases hany : anyCover fs rest = true
          · have := anyCoverCountPos hany
            rw [if_pos ⟨hsc, hany⟩]
            omega
          · rw [if_neg (fun h => hany h.2)]
            omega
        · have hscf : sc = false := Bool.eq_false_iff.mpr hsc
          subst hscf
          simp only [Bool.false_eq_true, false_and, if_false]
          omega

theorem buildBlocksAnchorsSublist (fs : List (String × String)) (sc : Bool) :
    ∀ (spine : List ManifestItem) (i : Nat) (skipped : Bool),
      ((buildBlocks fs sc spine i skipped).map Block.anchor_id).Sublist
        (spine.map (fun it => anchorIdOf it.href)) := by
  intro spine
  induction spine with
  | nil => intro i skipped; simp [buildBlocks]
  | cons item rest ih =>
    intro i skipped
    cases hlk : List.lookup item.full_path fs with
    | none =>
      simp only [buildBlocks, hlk, List.map_cons]
      exact (ih (i + 1) skipped).cons _
    | some content =>
      by_cases hcond : (sc && !skipped && is_cover_page fs item.full_path item.href) = true
      · simp only [buildBlocks, hlk, hcond, if_true, List.map_cons]
        exact (ih (i + 1) true).cons _
      · have hcond' := Bool.eq_false_iff.mpr hcond
        simp only [buildBlocks, hlk, hcond', Bool.false_eq_true, if_false, List.map_cons]
        exact (ih (i + 1) skipped).cons₂ _

theorem buildBlocksClsBreak (fs : List (String × String)) (sc : Bool) :
    ∀ (spine : List ManifestItem) (i : Nat) (skipped : Bool), 1 ≤ i →
      ∀ b ∈ buildBlocks fs sc spine i skipped, b.cls = "epub-chapter-break" := by
  intro spine
  induction spine with
  | nil => intro i skipped _ b hb; simp [buildBlocks] at hb
  | cons item rest ih =>
    intro i skipped hi b hb
    cases hlk : List.lookup item.full_path fs with
    | none =>
      rw [buildBlocks, hlk] at hb
      exact ih (i + 1) skipped (by omega) b hb
    | some content =>
      by_cases hcond : (sc && !skipped && is_cover_page fs item.full_path item.href) = true
      · rw [buildBlocks, hlk] at hb
        simp only [hcond, if_true] at hb
        exact ih (i + 1) true (by omega) b hb
      · have hcond' := Bool.eq_false_iff.mpr hcond
        rw [buildBlocks, hlk] at hb
        simp only [hcond', Bool.false_eq_true, if_false] at hb
        rcases List.mem_cons.mp hb with rfl | hb2
        · simp only []
          have : i > 0 := by omega
          simp [this]
        · exact ih (i + 1) skipped (by omega) b hb2

theorem buildBlocksConsKeep {fs : List (String × String)} {sc : Bool} {item : ManifestItem}
    {rest : List ManifestItem} {i : Nat} {skipped : Bool} {content : String}
    (hlk : List.lookup item.full_path fs = some content)
    (hcond : (sc && !skipped && is_cover_page fs item.full_path item.href) = false) :
    buildBlocks fs sc (item :: rest) i skipped =
      ⟨anchorIdOf item.href,
       if i > 0 then "epub-chapter-break" else "epub-chapter-first",
       String.mk (stripEpubType (stripXmlns (rewriteLinksL (processBody content.data))))⟩ ::
        buildBlocks fs sc rest (i + 1) skipped := by
  simp only [buildBlocks, hlk, hcond, Bool.false_eq_true, if_false]

theorem foldlOverwriteGetLast (f : Xml → Bool) (elems : List Xml) :
    elems.foldl (fun acc e => if f e then some e.text else acc) none =
      (elems.filter f).getLast?.map Xml.text := by
  induction elems using List.reverseRecOn with
  | nil => rfl
  | append_singleton l e ih =>
    rw [List.foldl_append, List.filter_append]
    cases hf : f e
    · simp only [List.foldl_cons, List.foldl_nil, hf, Bool.false_eq_true, if_false]
      rw [ih]
      simp [List.filter_cons, hf]
    · simp only [List.foldl_cons, List.foldl_nil, hf, if_true]
      simp [List.filter_cons, hf]

/-- C4: the number of per-chapter content blocks in the flattened document
equals the number of spine entries whose resolved file exists on disk, minus
one if and only if cover-skipping was active and some spine item is flagged
by the cover-page detector (the first such item is elided); the elision never
removes more than one entry even if several items would be flagged. -/
theorem c4_block_count (fs : List (String × String)) (spine : List ManifestItem) (sc : Bool) :
    (build_combined fs spine sc).blocks.length =
      countExisting fs spine - (if sc = true ∧ anyCover fs spine = true then 1 else 0) :=
  buildBlocksLen fs sc spine 0

/-- C7: the flattened document's stylesheet list is sorted lexicographically
(by the linear order on strings, which is code-point lexicographic, matching
Python `sorted`), has no duplicates, and contains exactly the
referenced-and-existing stylesheet paths collected from the surviving
chapters; in particular a stylesheet referenced identically by three
different chapters appears exactly once, in lexicographic position. -/
theorem c7_stylesheets (fs : List (String × String)) (spine : List ManifestItem) (sc : Bool) :
    List.Sorted (fun a b : String => a ≤ b) (build_combined fs spine sc).css ∧
    (build_combined fs spine sc).css.Nodup ∧
    ∀ p : String, p ∈ (build_combined fs spine sc).css ↔ p ∈ collectCss fs sc spine false := by
  refine ⟨?_, ?_, ?_⟩
  · exact List.sorted_insertionSort _ _
  · exact ((List.perm_insertionSort _ _).nodup_iff).mpr (List.nodup_dedup _)
  · intro p
    rw [show (build_combined fs spine sc).css =
      List.insertionSort (fun a b => a ≤ b) ((collectCss fs sc spine false).dedup) from rfl]
    rw [(List.perm_insertionSort _ _).mem_iff, List.mem_dedup]

/-- C10 (implicit claim): the link rewriting only matches href attributes
delimited by double quotes; any chapter body in which the token `href="`
never occurs - in particular one whose hyperlinks are written with single
quotes, such as `href='chapter2.xhtml'` - is passed through the rewriting
step completely unchanged, even when the target is a `.xhtml` chapter file. -/
theorem c10_single_quote_unchanged (body : List Char)
    (h : ¬ ("href=\"".data <:+: body)) : rewriteLinksL body = body := by
  apply rewriteLinksIdOfNoHref
  rw [noHrefAt_eq_not_contains]
  have hfalse : containsSub hrefQuoteL body = false := by
    cases hb : containsSub hrefQuoteL body
    · rfl
    · exact absurd ((containsSubSpec _ _).mp hb) h
  rw [hfalse]
  rfl

/-- Witness for C10: a single-quoted hyperlink to a `.xhtml` chapter is left
byte-for-byte unchanged by the link rewriting. -/
theorem c10_single_quote_unchanged_witness :
    rewriteLinksL ("<a href='chapter2.xhtml'>x</a>".data) =
      "<a href='chapter2.xhtml'>x</a>".data :=
  c10_single_quote_unchanged _ (by decide)

/-- C3 amended: the page-break class is decided by the item's position in the
spine, not by survival order: the spine item at index 0, when it survives,
receives the `epub-chapter-first` class, and every surviving item at a
positive spine index receives the `epub-chapter-break` class - including the
first surviving item when earlier spine entries were skipped. -/
theorem c3_first_class_amended (fs : List (String × String)) (sc : Bool)
    (item : ManifestItem) (rest : List ManifestItem) (content : String)
    (hlk : List.lookup item.full_path fs = some content)
    (hcond : (sc && is_cover_page fs item.full_path item.href) = false) :
    (buildBlocks fs sc (item :: rest) 0 false).map Block.cls =
      "epub-chapter-first" :: (buildBlocks fs sc rest 1 false).map Block.cls ∧
    ∀ b ∈ buildBlocks fs sc rest 1 false, b.cls = "epub-chapter-break" := by
  have hcond' : (sc && !false && is_cover_page fs item.full_path item.href) = false := by
    simpa using hcond
  constructor
  · rw [buildBlocksConsKeep hlk hcond']
    simp
  · exact buildBlocksClsBreak fs sc rest 1 false le_rfl

/-- Witness for C3 amended: concrete two-chapter spine where both files
exist; the index-0 item gets the first class and the index-1 item the break
class. -/
theorem c3_first_class_amended_witness :
    (buildBlocks [("a.xhtml", "<body>A</body>"), ("b.xhtml", "<body>B</body>")] false
        [⟨"a.xhtml", "", "", "a.xhtml"⟩, ⟨"b.xhtml", "", "", "b.xhtml"⟩] 0 false).map Block.cls =
      "epub-chapter-first" ::
        (buildBlocks [("a.xhtml", "<body>A</body>"), ("b.xhtml", "<body>B</body>")] false
          [⟨"b.xhtml", "", "", "b.xhtml"⟩] 1 false).map Block.cls := by
  exact (c3_first_class_amended
    [("a.xhtml", "<body>A</body>"), ("b.xhtml", "<body>B</body>")] false
    ⟨"a.xhtml", "", "", "a.xhtml"⟩ [⟨"b.xhtml", "", "", "b.xhtml"⟩] "<body>A</body>"
    (by decide) (by decide)).1

/-- C3 counterexample: the first spine entry's file is missing, so the first
SURVIVING item sits at spine index 1 and receives `epub-chapter-break`, not
the `first` class the claim promises for the first surviving item. -/
theorem c3_counterexample :
    (buildBlocks [("b.xhtml", "<body>B</body>")] false
        [⟨"a.xhtml", "", "", "a.xhtml"⟩, ⟨"b.xhtml", "", "", "b.xhtml"⟩] 0 false).map Block.cls =
      ["epub-chapter-break"] ∧ ("epub-chapter-break" : String) ≠ "epub-chapter-first" :=
  ⟨rfl, by decide⟩

/-- C1 counterexample: two spine items in different directories share the
basename `ch.xhtml`, so both containers receive the anchor id `ch` - the
synthesized anchor ids of the flattened document are not pairwise unique. -/
theorem c1_counterexample :
    ((build_combined [("a/ch.xhtml", "<body>A</body>"), ("b/ch.xhtml", "<body>B</body>")]
        [⟨"a/ch.xhtml", "", "", "a/ch.xhtml"⟩, ⟨"b/ch.xhtml", "", "", "b/ch.xhtml"⟩]
        false).blocks.map Block.anchor_id) = ["ch", "ch"] ∧
    ¬ ((build_combined [("a/ch.xhtml", "<body>A</body>"), ("b/ch.xhtml", "<body>B</body>")]
        [⟨"a/ch.xhtml", "", "", "a/ch.xhtml"⟩, ⟨"b/ch.xhtml", "", "", "b/ch.xhtml"⟩]
        false).blocks.map Block.anchor_id).Nodup := by
  constructor
  · rfl
  · decide

/-- C1 amended: anchor uniqueness and link resolution hold under the
conditions the code actually requires.  (a) If the extension-stripped
basenames of the spine items are pairwise distinct, the anchor ids of the
flattened blocks are pairwise unique (they form a sublist of the spine's
anchor ids).  (b) A rewritten hyperlink whose pre-fragment target is exactly
a chapter's href basename resolves to that chapter's anchor id, provided the
basename ends in `.xhtml` with a nonempty stem and removing its `.xhtml`
occurrences leaves no `.html` substring to be further stripped by the anchor
synthesis. -/
theorem c1_anchor_resolution_amended (fs : List (String × String)) (sc : Bool)
    (spine : List ManifestItem) (i : Nat) (skipped : Bool)
    (item : ManifestItem) (frag rest : List Char)
    (hnod : (spine.map (fun it => anchorIdOf it.href)).Nodup)
    (ht : ∀ c ∈ basenameL item.href.data, c ≠ '"' ∧ c ≠ '#')
    (hsuf : xhtmlL.isSuffixOf (basenameL item.href.data) = true)
    (hlen : 6 < (basenameL item.href.data).length)
    (hfrag : ∀ c ∈ frag, c ≠ '"')
    (hres : replaceAllL (".html".data) [] (replaceAllL xhtmlL [] (basenameL item.href.data)) =
      replaceAllL xhtmlL [] (basenameL item.href.data)) :
    ((buildBlocks fs sc spine i skipped).map Block.anchor_id).Nodup ∧
    rewriteLinksL (hrefQuoteL ++ basenameL item.href.data ++ ('#' :: frag) ++ '"' :: rest) =
      hrefQuoteL ++ '#' :: (anchorIdOf item.href).data ++ '"' :: rewriteLinksL rest := by
  constructor
  · exact List.Nodup.sublist (buildBlocksAnchorsSublist fs sc spine i skipped) hnod
  · have h2 := rewriteLinksHitLemma (basenameL item.href.data) ('#' :: frag) rest ht hsuf hlen
      (Or.inr ⟨frag, rfl, hfrag⟩)
    rw [h2]
    have hdata : (anchorIdOf item.href).data =
        replaceAllL (".html".data) [] (replaceAllL xhtmlL [] (basenameL item.href.data)) := rfl
    rw [hdata, hres]

/-- Witness for C1 amended: a two-chapter spine with distinct basenames; the
anchors are unique and a link `href="c2.xhtml#sec"` resolves to the anchor id
`c2` of the second chapter. -/
theorem c1_anchor_resolution_amended_witness :
    ((buildBlocks [("c1.xhtml", "<body>A</body>"), ("c2.xhtml", "<body>B</body>")] false
        [⟨"c1.xhtml", "", "", "c1.xhtml"⟩, ⟨"c2.xhtml", "", "", "c2.xhtml"⟩]
        0 false).map Block.anchor_id).Nodup ∧
    rewriteLinksL (hrefQuoteL ++ basenameL ("c2.xhtml" : String).data ++
        ('#' :: "sec".data) ++ '"' :: []) =
      hrefQuoteL ++ '#' :: (anchorIdOf ("c2.xhtml" : String)).data ++ '"' :: rewriteLinksL [] :=
  c1_anchor_resolution_amended
    [("c1.xhtml", "<body>A</body>"), ("c2.xhtml", "<body>B</body>")] false
    [⟨"c1.xhtml", "", "", "c1.xhtml"⟩, ⟨"c2.xhtml", "", "", "c2.xhtml"⟩] 0 false
    ⟨"c2.xhtml", "", "", "c2.xhtml"⟩ ("sec".data) []
    (by decide) (by decide) (by decide) (by decide) (by decide) (by decide)

/-- C2 amended: a double-quoted href target ending in `.xhtml` with a
nonempty stem is rewritten to `#` + target-with-`.xhtml`-removed, discarding
any fragment (this includes absolute external URLs ending in `.xhtml`, which
the claim wrongly exempted); a target ending in `.html` is left byte-for-byte
unchanged. -/
theorem c2_link_rewriting_amended (t frag rest t2 : List Char) :
    ((∀ c ∈ t, c ≠ '"' ∧ c ≠ '#') → xhtmlL.isSuffixOf t = true → 6 < t.length →
      (∀ c ∈ frag, c ≠ '"') →
      rewriteLinksL (hrefQuoteL ++ t ++ ('#' :: frag) ++ '"' :: rest) =
        hrefQuoteL ++ '#' :: replaceAllL xhtmlL [] t ++ '"' :: rewriteLinksL rest ∧
      rewriteLinksL (hrefQuoteL ++ t ++ ([] : List Char) ++ '"' :: rest) =
        hrefQuoteL ++ '#' :: replaceAllL xhtmlL [] t ++ '"' :: rewriteLinksL rest) ∧
    ((∀ c ∈ t2, c ≠ '"' ∧ c ≠ '#') → (".html".data).isSuffixOf t2 = true →
      rewriteLinksL (hrefQuoteL ++ t2 ++ ['"']) = hrefQuoteL ++ t2 ++ ['"']) := by
  constructor
  · intro ht hsuf hlen hfrag
    exact ⟨rewriteLinksHitLemma t ('#' :: frag) rest ht hsuf hlen (Or.inr ⟨frag, rfl, hfrag⟩),
           rewriteLinksHitLemma t [] rest ht hsuf hlen (Or.inl rfl)⟩
  · intro ht2 hsuf2
    exact rewriteLinksHtmlIdLemma t2 ht2 hsuf2

/-- Witness for C2 amended: `href="chapter2.xhtml#sec"` becomes
`href="#chapter2"` (fragment discarded) and `href="notes.html"` is left
unchanged. -/
theorem c2_link_rewriting_amended_witness :
    rewriteLinksL ("href=\"chapter2.xhtml#sec\"".data) = "href=\"#chapter2\"".data ∧
    rewriteLinksL ("href=\"notes.html\"".data) = "href=\"notes.html\"".data := by
  have h := c2_link_rewriting_amended ("chapter2.xhtml".data) ("sec".data) [] ("notes.html".data)
  have ha := (h.1 (by decide) (by decide) (by decide) (by decide)).1
  have hb := h.2 (by decide) (by decide)
  constructor
  · have e1 : ("href=\"chapter2.xhtml#sec\"".data) =
        hrefQuoteL ++ "chapter2.xhtml".data ++ ('#' :: "sec".data) ++ '"' :: ([] : List Char) :=
      rfl
    rw [e1, ha]
    decide
  · have e2 : ("href=\"notes.html\"".data) = hrefQuoteL ++ "notes.html".data ++ ['"'] := rfl
    rw [e2, hb]

/-- C2 counterexample: the claim exempts external URLs from rewriting, but an
external URL ending in `.xhtml` is rewritten (and its navigation destroyed):
`href="http://example.com/ch.xhtml"` becomes `href="#http://example.com/ch"`. -/
theorem c2_counterexample :
    rewriteLinksL ("<a href=\"http://example.com/ch.xhtml\">x</a>".data) =
      "<a href=\"#http://example.com/ch\">x</a>".data ∧
    rewriteLinksL ("<a href=\"http://example.com/ch.xhtml\">x</a>".data) ≠
      "<a href=\"http://example.com/ch.xhtml\">x</a>".data := by
  constructor
  · rfl
  · decide

/-- C5 amended: the Cover-Page Detector flags an item if and only if the
lower-cased basename of its href contains `cover`, the file exists, and
either the extracted body contains `<img` followed by a whitespace character
(the regex `<img\s` - a self-closing `<img/>` with no space does NOT count,
which is where the claim's "at least one image tag" fails) with tag-stripped
trimmed text under 100 characters, or the content matches the body-class
regex `<body[^>]*class="[^"]*cover[^"]*"`; items failing the filename check
are never flagged, and a missing/unreadable file yields `false`. -/
theorem c5_cover_detector_amended (fs : List (String × String)) (path href : String) :
    is_cover_page fs path href = true ↔
      ("cover".data <:+: basenameL (lowerL href.data) ∧
       ∃ content, List.lookup path fs = some content ∧
         ((∃ g, extractBodyFrom content.data = some g ∧
             hasImgSpace (pyStrip g) = true ∧
             (pyStrip (stripTags (pyStrip g))).length < 100) ∨
          bodyClassCover content.data = true)) := by
  unfold is_cover_page
  by_cases hc : containsSub ("cover".data) (basenameL (lowerL href.data)) = true
  · rw [if_pos hc]
    have hcP := (containsSubSpec _ _).mp hc
    cases hl : List.lookup path fs with
    | none =>
      dsimp only
      constructor
      · intro h; exact absurd h (by simp)
      · rintro ⟨-, content, hcon, -⟩
        exact absurd hcon (by simp)
    | some content =>
      dsimp only
      constructor
      · intro h
        refine ⟨hcP, content, rfl, ?_⟩
        simp only [Bool.or_eq_true] at h
        rcases h with h1 | h1
        · cases hg : extractBodyFrom content.data with
          | none => rw [hg] at h1; exact absurd h1 (by simp)
          | some g =>
            rw [hg] at h1
            simp only [Bool.and_eq_true, decide_eq_true_eq] at h1
            exact Or.inl ⟨g, rfl, h1.1, h1.2⟩
        · exact Or.inr h1
      · rintro ⟨-, content2, hcon, hbody⟩
        obtain rfl : content = content2 := by injection hcon
        rcases hbody with ⟨g, hg, himg, hlen⟩ | hcls
        · rw [hg]
          simp [himg, hlen]
        · simp [hcls]
  · rw [if_neg hc]
    constructor
    · intro h; exact absurd h (by simp)
    · rintro ⟨hinf, -⟩
      exact absurd ((containsSubSpec _ _).mpr hinf) hc

/-- C5 counterexample: `cover.xhtml` whose body is exactly `<img/>` - an
image tag with no following whitespace and empty text.  By the claim's
reading ("at least one image tag" and text under 100 characters) it must be
flagged, but the code's `<img\s` regex does not match, the class check fails,
and the detector answers `false`. -/
theorem c5_counterexample :
    is_cover_page [("cover.xhtml", "<body><img/></body>")] "cover.xhtml" "cover.xhtml" = false ∧
    ("cover".data <:+: basenameL (lowerL ("cover.xhtml" : String).data)) ∧
    extractBodyFrom ("<body><img/></body>" : String).data = some ("<img/>".data) ∧
    ("<img".data <:+: lowerL (pyStrip ("<img/>".data))) ∧
    (pyStrip (stripTags (pyStrip ("<img/>".data)))).length < 100 := by
  exact ⟨rfl, by decide, rfl, by decide, by decide⟩

/-- C6 amended: the Manifest Parser's returned metadata holds the text of the
LAST occurrence of each descriptive element (each loop iteration overwrites
the key), not the first as claimed; absence of the element leaves the field
unset (`getLast?` of an empty filter is `none`) without failing. -/
theorem c6_metadata_amended (a : Archive) (dir : String) (container rf root : Xml)
    (r : OpfResult)
    (hc : a.containerXml = some container)
    (hrf : (iterAllList container.children).find? (fun e => e.tag == containerRootfileTag) =
      some rf)
    (hroot : List.lookup (joinPath dir ((attrGet rf "full-path").getD "")) a.opfFiles =
      some root)
    (hok : parse_opf a dir = .ok r) :
    r.metadata.title =
      ((iterAll root).filter (fun e => e.tag == dcTitleTag)).getLast?.map Xml.text ∧
    r.metadata.creator =
      ((iterAll root).filter (fun e => e.tag == dcCreatorTag)).getLast?.map Xml.text := by
  unfold parse_opf at hok
  simp only [hc, hrf, hroot, Except.ok.injEq] at hok
  subst hok
  constructor
  · exact foldlOverwriteGetLast (fun e => e.tag == dcTitleTag) (iterAll root)
  · exact foldlOverwriteGetLast (fun e => e.tag == dcCreatorTag) (iterAll root)

/-- Witness for C6 amended: a package document with two `dc:title` elements
`A` then `B`; the returned title is `some (some "B")`, the last occurrence,
and the absent creator is `none`. -/
theorem c6_metadata_amended_witness :
    ((⟨[], [], ⟨some (some "B"), none⟩, "d", none⟩ : OpfResult).metadata.title =
      ((iterAll (Xml.elem "package" [] none
          [Xml.elem dcTitleTag [] (some "A") [], Xml.elem dcTitleTag [] (some "B") []])).filter
        (fun e => e.tag == dcTitleTag)).getLast?.map Xml.text) ∧
    ((⟨[], [], ⟨some (some "B"), none⟩, "d", none⟩ : OpfResult).metadata.creator =
      ((iterAll (Xml.elem "package" [] none
          [Xml.elem dcTitleTag [] (some "A") [], Xml.elem dcTitleTag [] (some "B") []])).filter
        (fun e => e.tag == dcCreatorTag)).getLast?.map Xml.text) :=
  c6_metadata_amended
    ⟨[], some (Xml.elem "container" [] none
        [Xml.elem containerRootfileTag [("full-path", "content.opf")] none []]),
      [("d/content.opf", Xml.elem "package" [] none
        [Xml.elem dcTitleTag [] (some "A") [], Xml.elem dcTitleTag [] (some "B") []])]⟩
    "d"
    (Xml.elem "container" [] none
      [Xml.elem containerRootfileTag [("full-path", "content.opf")] none []])
    (Xml.elem containerRootfileTag [("full-path", "content.opf")] none [])
    (Xml.elem "package" [] none
      [Xml.elem dcTitleTag [] (some "A") [], Xml.elem dcTitleTag [] (some "B") []])
    ⟨[], [], ⟨some (some "B"), none⟩, "d", none⟩
    rfl rfl rfl rfl

/-- C6 counterexample: for a package document with titles `A` then `B`, the
parser returns `B` (the last occurrence), so the claim's "first occurrence
wins" is false. -/
theorem c6_counterexample :
    (parse_opf
      ⟨[], some (Xml.elem "container" [] none
          [Xml.elem containerRootfileTag [("full-path", "content.opf")] none []]),
        [("d/content.opf", Xml.elem "package" [] none
          [Xml.elem dcTitleTag [] (some "A") [], Xml.elem dcTitleTag [] (some "B") []])]⟩
      "d").map (fun r => r.metadata.title) = .ok (some (some "B")) ∧
    (some (some "B") : Option (Option String)) ≠ some (some "A") :=
  ⟨rfl, by decide⟩

theorem epubRunParseError {a : Archive} {dir : String}
    {cov rend merg : Except ConvError Unit} {e : ConvError}
    (hp : parse_opf a dir = .error e) :
    (epub_to_pdf_run (.ok a) dir cov rend merg).1 = .error e := by
  unfold epub_to_pdf_run
  simp [hp]

/-- C8: for an extracted archive missing `META-INF/container.xml`, the run
aborts with the `MalformedArchive` error; for a container descriptor with no
rootfile entry, with `MissingPackageDocument`; and on every exit path -
including these failures - the `finally` cleanup of the temporary extraction
directory runs (second component `true`). -/
theorem c8_cleanup_and_errors (er : Except ConvError Archive) (dir : String)
    (cov rend merg : Except ConvError Unit) (a : Archive) (container : Xml) :
    ((epub_to_pdf_run er dir cov rend merg).2 = true) ∧
    (er = .ok a → a.containerXml = none →
      (epub_to_pdf_run er dir cov rend merg).1 = .error .malformedArchive) ∧
    (er = .ok a → a.containerXml = some container →
      (iterAllList container.children).find? (fun e => e.tag == containerRootfileTag) = none →
      (epub_to_pdf_run er dir cov rend merg).1 = .error .missingPackageDocument) := by
  refine ⟨rfl, ?_, ?_⟩
  · rintro rfl hc
    exact epubRunParseError (by unfold parse_opf; rw [hc])
  · rintro rfl hc hrf
    refine epubRunParseError ?_
    unfold parse_opf
    rw [hc]
    simp only [hrf]

/-- Witness for C8: concrete archives - one with no container descriptor, one
whose container has no rootfile entry - produce the claimed errors, and the
cleanup flag is `true`. -/
theorem c8_cleanup_and_errors_witness :
    ((epub_to_pdf_run (.ok ⟨[], none, []⟩) "d" (.ok ()) (.ok ()) (.ok ())).2 = true) ∧
    ((epub_to_pdf_run (.ok ⟨[], none, []⟩) "d" (.ok ()) (.ok ()) (.ok ())).1 =
      .error .malformedArchive) ∧
    ((epub_to_pdf_run (.ok ⟨[], some (Xml.elem "container" [] none []), []⟩) "d"
        (.ok ()) (.ok ()) (.ok ())).1 = .error .missingPackageDocument) :=
  ⟨(c8_cleanup_and_errors _ "d" _ _ _ ⟨[], none, []⟩ (Xml.elem "container" [] none [])).1,
   (c8_cleanup_and_errors _ "d" _ _ _ ⟨[], none, []⟩ (Xml.elem "container" [] none [])).2.1
     rfl rfl,
   (c8_cleanup_and_errors _ "d" _ _ _ ⟨[], some (Xml.elem "container" [] none []), []⟩
     (Xml.elem "container" [] none [])).2.2 rfl rfl rfl⟩

/-- C9 amended: at the default trim, an input with exactly the target aspect
ratio (w : h = 11 : 17) is resized to exactly 825 x 1275 with zero crop on
every side; an input of double the target width (w : h = 22 : 17) is resized
to 1650 x 1275 and cropped ALMOST symmetrically: 825 columns must be removed
and 825 is odd, so 412 pixels are removed on the left and 413 on the right -
the claim's "equal pixel counts" is off by one. -/
theorem c9_cover_geometry_amended (w h : Nat) (hpos : 0 < h) :
    (((w : ℚ) * 17 = (h : ℚ) * 11) →
      coverResize w h = (825, 1275) ∧
      cropRemoved (coverResize w h).1 (coverResize w h).2 = (0, 0, 0, 0)) ∧
    (((w : ℚ) * 17 = (h : ℚ) * 22) →
      coverResize w h = (1650, 1275) ∧
      cropRemoved (coverResize w h).1 (coverResize w h).2 = (412, 413, 0, 0)) := by
  have hh : ((h : ℚ)) ≠ 0 := Nat.cast_ne_zero.mpr (Nat.pos_iff_ne_zero.mp hpos)
  constructor
  · intro hr
    have ha : (w : ℚ) / (h : ℚ) = 11 / 17 := by
      rw [div_eq_div_iff hh (by norm_num)]
      linarith
    have h1 : coverResize w h = (825, 1275) := by
      show (if (825 : ℚ) / 1275 < (w : ℚ) / (h : ℚ) then
          ((⌊(1275 : ℚ) * ((w : ℚ) / (h : ℚ))⌋ : ℤ), (1275 : ℤ))
        else ((825 : ℤ), ⌊(825 : ℚ) / ((w : ℚ) / (h : ℚ))⌋)) = (825, 1275)
      rw [ha, if_neg (by norm_num), show ⌊(825 : ℚ) / ((11 : ℚ) / 17)⌋ = (1275 : ℤ) by norm_num]
    exact ⟨h1, by rw [h1]; decide⟩
  · intro hr
    have ha : (w : ℚ) / (h : ℚ) = 22 / 17 := by
      rw [div_eq_div_iff hh (by norm_num)]
      linarith
    have h1 : coverResize w h = (1650, 1275) := by
      show (if (825 : ℚ) / 1275 < (w : ℚ) / (h : ℚ) then
          ((⌊(1275 : ℚ) * ((w : ℚ) / (h : ℚ))⌋ : ℤ), (1275 : ℤ))
        else ((825 : ℤ), ⌊(825 : ℚ) / ((w : ℚ) / (h : ℚ))⌋)) = (1650, 1275)
      rw [ha, if_pos (by norm_num),
        show ⌊(1275 : ℚ) * ((22 : ℚ) / 17)⌋ = (1650 : ℤ) by norm_num]
    exact ⟨h1, by rw [h1]; decide⟩

/-- Witness for C9 amended: the exact-aspect input 825 x 1275 and the
double-width input 1650 x 1275. -/
theorem c9_cover_geometry_amended_witness :
    (coverResize 825 1275 = (825, 1275) ∧
      cropRemoved (coverResize 825 1275).1 (coverResize 825 1275).2 = (0, 0, 0, 0)) ∧
    (coverResize 1650 1275 = (1650, 1275) ∧
      cropRemoved (coverResize 1650 1275).1 (coverResize 1650 1275).2 = (412, 413, 0, 0)) :=
  ⟨(c9_cover_geometry_amended 825 1275 (by norm_num)).1 (by norm_num),
   (c9_cover_geometry_amended 1650 1275 (by norm_num)).2 (by norm_num)⟩

/-- C9 counterexample: at double target width the crop is not symmetric - 412
pixels are removed on the left and 413 on the right. -/
theorem c9_counterexample :
    coverResize 1650 1275 = (1650, 1275) ∧
    cropRemoved 1650 1275 = (412, 413, 0, 0) ∧ (412 : ℤ) ≠ 413 := by
  refine ⟨?_, by decide, by decide⟩
  show (if (825 : ℚ) / 1275 < ((1650 : ℕ) : ℚ) / ((1275 : ℕ) : ℚ) then
      ((⌊(1275 : ℚ) * (((1650 : ℕ) : ℚ) / ((1275 : ℕ) : ℚ))⌋ : ℤ), (1275 : ℤ))
    else ((825 : ℤ), ⌊(825 : ℚ) / (((1650 : ℕ) : ℚ) / ((1275 : ℕ) : ℚ))⌋)) = (1650, 1275)
  rw [if_pos (by norm_num), show ⌊(1275 : ℚ) * (((1650 : ℕ) : ℚ) / ((1275 : ℕ) : ℚ))⌋ =
    (1650 : ℤ) by norm_num]
